import Mathlib

/-!
Verification development for the Periodic-table-generator repository.

The repository contains two Go programs that each render one PNG "card" per
chemical element: `src/main.go` (flag-driven, white tiles with a coloured
border) and `src/unnamed/part_000` (fixed-size tiles with a coloured
background).  This file gives a shallow embedding of the pure core of both
programs — hex-colour parsing, colour resolution, category normalisation,
canvas geometry, text layout and the batch loop's control flow — and proves
the specification's claims about them.

Strings are modelled as `List Char`; Go byte/rune handling of the relevant
functions is ASCII throughout the data that reaches them, and the embedding
models the ASCII case of `strings.ToLower` / `unicode.IsSpace`.  Machine
integers are modelled as `Nat`/`Int` (no value in these programs approaches
an overflow boundary: heights, widths and colour channels stay far below
2^31, and colour channels are produced `< 256` by construction).
-/

/-- RGBA colour, image/color.RGBA of the Go sources.  The Go fields are
`uint8`; every value constructed by the embedded functions is `< 256`, so the
channels are carried as `Nat`. -/
structure RGBA where
  r : Nat
  g : Nat
  b : Nat
  a : Nat
deriving DecidableEq

/-- ASCII model of `unicode.IsSpace` (the whitespace recognised by
`strings.TrimSpace` and `strings.Fields`). -/
def goIsSpace (c : Char) : Bool :=
  c = ' ' || c = '\t' || c = '\n' || c = '\r' || c = '\x0b' || c = '\x0c'

/-- ASCII model of `strings.ToLower`: map 'A'..'Z' to 'a'..'z', leave
everything else unchanged. -/
def goToLower (c : Char) : Char :=
  if 65 ≤ c.toNat ∧ c.toNat ≤ 90 then Char.ofNat (c.toNat + 32) else c

/-- One hex digit of Go's `%x` scanning and of part_000's `hexToByte`:
`some` of its value for '0'-'9', 'a'-'f', 'A'-'F', `none` otherwise. -/
def hexByteVal (c : Char) : Option Nat :=
  if 48 ≤ c.toNat ∧ c.toNat ≤ 57 then some (c.toNat - 48)
  else if 97 ≤ c.toNat ∧ c.toNat ≤ 102 then some (c.toNat - 97 + 10)
  else if 65 ≤ c.toNat ∧ c.toNat ≤ 70 then some (c.toNat - 65 + 10)
  else none

/-- `strings.TrimSpace`: drop whitespace from both ends. -/
def goTrimSpace (s : List Char) : List Char :=
  ((s.dropWhile goIsSpace).reverse.dropWhile goIsSpace).reverse

/-- `strings.TrimPrefix(h, "#")`: remove one leading '#' if present. -/
def stripHash (s : List Char) : List Char :=
  match s with
  | '#' :: rest => rest
  | _ => s

/-- The 3-digit shorthand expansion of `hexToRGBA` (main.go line 50):
`string([]byte{h[0], h[0], h[1], h[1], h[2], h[2]})`, applied only when the
length is exactly 3. -/
def expand3 (h : List Char) : List Char :=
  match h with
  | [a, b, c] => [a, a, b, b, c, c]
  | _ => h

/-- The body `hexToRGBA` scans: trimmed, '#'-stripped, 3-digit-expanded. -/
def hexBody (s : List Char) : List Char :=
  let h := stripHash (goTrimSpace s)
  if h.length = 3 then expand3 h else h

/-- One `%02x` verb of `fmt.Sscanf`: skip leading spaces, then read one or
two hex digits (at least one, else the verb fails and scanning stops).
Returns the scanned value and the rest of the input. -/
def scanHex2 (l : List Char) : Option (Nat × List Char) :=
  match l.dropWhile goIsSpace with
  | [] => none
  | c :: rest =>
    match hexByteVal c with
    | none => none
    | some v1 =>
      match rest with
      | [] => some (v1, [])
      | d :: rest2 =>
        match hexByteVal d with
        | none => some (v1, rest)
        | some v2 => some (v1 * 16 + v2, rest2)

/-- The `fmt.Sscanf(h, "%02x%02x%02x", &c.R, &c.G, &c.B)` call of main.go:
`c` starts zero-valued; each verb that succeeds assigns its field; the first
failing verb stops the scan and leaves the remaining fields 0.  `c.A` is set
to 255 afterwards in all cases. -/
def scanRGB (h : List Char) : RGBA :=
  match scanHex2 h with
  | none => ⟨0, 0, 0, 255⟩
  | some (r, t1) =>
    match scanHex2 t1 with
    | none => ⟨r, 0, 0, 255⟩
    | some (g, t2) =>
      match scanHex2 t2 with
      | none => ⟨r, g, 0, 255⟩
      | some (b, _) => ⟨r, g, b, 255⟩

/-- `hexToRGBA` of main.go (lines 47-59): trim whitespace, strip an optional
leading '#', expand a 3-character body, and return opaque black unless the
resulting body has length 6, in which case scan it as three `%02x` fields. -/
def hexToRGBA (s : List Char) : RGBA :=
  if (hexBody s).length = 6 then scanRGB (hexBody s) else ⟨0, 0, 0, 255⟩

/-- First-match association-list lookup, modelling a Go map read (keys of a
Go map are unique, so first-match agrees with map semantics). -/
def lookupL (t : List (List Char × List Char)) (k : List Char) : Option (List Char) :=
  match t with
  | [] => none
  | (k2, v) :: rest => if k2 = k then some v else lookupL rest k

/-- Border-colour selection of the main.go batch loop (lines 202-205):
`border := hexToRGBA(colours[e.Type]); if _, ok := colours[e.Type]; !ok
{ border = color.RGBA{0, 0, 0, 255} }`.  A missing key reads as "" in Go. -/
def borderColour (colours : List (List Char × List Char)) (ty : List Char) : RGBA :=
  let b := hexToRGBA ((lookupL colours ty).getD [])
  if (lookupL colours ty).isSome then b else ⟨0, 0, 0, 255⟩

/-- `parseHexColor` of part_000 (lines 170-197).  Result `none` models the
out-of-range index panic of `s[0]` on an empty string; `some (c, e)` models
the Go return `(c, err)` with `e = true` iff `err ≠ nil`.  The function
starts from `c := RGBA{A: 0xff}`, requires a leading '#', and accepts only
the 7-character form, computing each channel from `hexToByte` values (a bad
digit contributes 0 and sets the error). -/
def parseHexColor (s : List Char) : Option (RGBA × Bool) :=
  match s with
  | [] => none
  | c0 :: rest =>
    if c0 = '#' then
      match rest with
      | [a1, a2, a3, a4, a5, a6] =>
        some (⟨(hexByteVal a1).getD 0 * 16 + (hexByteVal a2).getD 0,
               (hexByteVal a3).getD 0 * 16 + (hexByteVal a4).getD 0,
               (hexByteVal a5).getD 0 * 16 + (hexByteVal a6).getD 0, 255⟩,
              (hexByteVal a1).isNone || (hexByteVal a2).isNone ||
              (hexByteVal a3).isNone || (hexByteVal a4).isNone ||
              (hexByteVal a5).isNone || (hexByteVal a6).isNone)
      | _ => some (⟨0, 0, 0, 255⟩, true)
    else some (⟨0, 0, 0, 255⟩, true)

/-- The key `"unknown"` of part_000's fallback lookup. -/
def unknownKey : List Char := "unknown".toList

/-- The hex string part_000 selects for a category (lines 84-87):
`colorMap[el.Category]`, falling back to `colorMap["unknown"]` when the
category key is absent (a missing map key reads as ""). -/
def selectedHex (table : List (List Char × List Char)) (cat : List Char) : List Char :=
  match lookupL table cat with
  | some v => v
  | none => (lookupL table unknownKey).getD []

/-- Colour resolution of part_000 (lines 84-92): parse the selected hex
string; a non-nil parse error is replaced by the hardcoded gray
`RGBA{224, 224, 224, 255}`; `none` propagates the `parseHexColor` panic. -/
def resolveColor (cat : List Char) (table : List (List Char × List Char)) : Option RGBA :=
  match parseHexColor (selectedHex table cat) with
  | none => none
  | some (c, false) => some c
  | some (_, true) => some ⟨224, 224, 224, 255⟩

/-- Canvas width of main.go (lines 167-169): `ratio := 2456.0/1882.0;
tileW := int(ratio * float64(tileH))`, modelled in exact arithmetic: for
nonnegative heights `int` truncation is the floor `2456 * h / 1882`.  (Go
computes the product in float64; on the heights appearing in the claims the
two agree.) -/
def tileWidth (h : Nat) : Nat := 2456 * h / 1882

/-- Border thickness of main.go (line 206): `bt := tileH / 15` (Go integer
division, which agrees with Nat division on nonnegative heights). -/
def borderThickness (h : Nat) : Nat := h / 15

/-- Padding of main.go (line 214): `pad := tileH / 20`. -/
def tilePadding (h : Nat) : Nat := h / 20

/-- Rounded width prescribed by the spec's words ("width = round(height ×
ratio)"), for comparison with `tileWidth`.  Modelled from the spec: round
half away from zero; since `2456*h/1882 = (941*h + 287*h)/941` never has
fractional part exactly 1/2 (the tie condition `574*h ≡ 941 [MOD 1882]` has
odd right-hand side and even left-hand side), any rounding convention gives
the same value `(2456 * h + 941) / 1882`. -/
def specRoundWidth (h : Nat) : Nat := (2456 * h + 941) / 1882

/-- Font-size divisor for the atomic number, main.go line 149. -/
def numSize : Nat := 10

/-- Font-size divisor for the symbol, main.go line 150. -/
def symSize : Nat := 3

/-- Font-size divisor for the name, main.go line 151. -/
def nameSize : Nat := 7

/-- Font-size divisor for the mass, main.go line 152. -/
def massSize : Nat := 10

/-- Point size handed to `loadFont` for a role (main.go lines 184-187):
`float64(tileH) / roleSize`, modelled in exact rational arithmetic. -/
def fontSizeFor (divisor : Nat) (h : ℚ) : ℚ := h / (divisor : ℚ)

/-- Symbol x origin of main.go line 227: `(tileW - symW) / 2`.  Go division
truncates toward zero; every instantiation in the claims has a nonnegative
numerator, where truncation agrees with Lean's Int division used here. -/
def symbolX (tileW symW : Int) : Int := (tileW - symW) / 2

/-- Symbol baseline y of main.go line 227: `tileH / 2`. -/
def symbolY (tileH : Int) : Int := tileH / 2

/-- Per-element I/O outcome for one iteration of a batch loop: file creation
and PNG encoding either both succeed, or one of them fails. -/
inductive IOEvent where
  | ok : IOEvent
  | createFail : IOEvent
  | encodeFail : IOEvent
deriving DecidableEq

/-- Observable outcome of a batch run: number of files that exist on disk
afterwards, number of warnings logged, number of per-element progress lines
printed, and whether the process reaches a successful exit. -/
structure BatchResult where
  filesWritten : Nat
  warningsLogged : Nat
  progressLines : Nat
  exitSuccess : Bool
deriving DecidableEq

/-- Batch loop of main.go (lines 198-239), one `IOEvent` per element record:
`f, _ := os.Create(...)` discards the error, `png.Encode(f, img)` and
`f.Close()` likewise, and `fmt.Println("Written:", fname)` runs
unconditionally.  A failed create leaves no file (encoding into the nil
`*os.File` only returns an ignored error); no failure is logged and the loop
never aborts, so the process exits successfully. -/
def runBatchMainGo : List IOEvent → BatchResult
  | [] => ⟨0, 0, 0, true⟩
  | ev :: rest =>
    let r := runBatchMainGo rest
    ⟨(if ev = IOEvent.createFail then 0 else 1) + r.filesWritten,
     r.warningsLogged, 1 + r.progressLines, r.exitSuccess⟩

/-- Batch loop of part_000 (lines 128-142): a failed `os.Create` logs a
warning and `continue`s (no file, no "Created" line); a failed `png.Encode`
logs a warning but the created file remains and the "Created" line is still
printed; the loop never aborts and the process exits successfully. -/
def runBatchPart000 : List IOEvent → BatchResult
  | [] => ⟨0, 0, 0, true⟩
  | ev :: rest =>
    let r := runBatchPart000 rest
    match ev with
    | IOEvent.createFail => ⟨r.filesWritten, 1 + r.warningsLogged, r.progressLines, r.exitSuccess⟩
    | IOEvent.encodeFail =>
      ⟨1 + r.filesWritten, 1 + r.warningsLogged, 1 + r.progressLines, r.exitSuccess⟩
    | IOEvent.ok => ⟨1 + r.filesWritten, r.warningsLogged, 1 + r.progressLines, r.exitSuccess⟩

/-- Separator replacement of `normaliseCategory` (main.go lines 63-64):
`strings.ReplaceAll(c, "-", " ")` then `strings.ReplaceAll(c, "_", " ")`,
character by character. -/
def replSep (c : Char) : Char := if c = '-' || c = '_' then ' ' else c

/-- The per-character cleaning of `normaliseCategory`: lowercase, then
replace '-' and '_' by a space. -/
def catChar (c : Char) : Char := replSep (goToLower c)

/-- `strings.Fields` (split into maximal whitespace-free runs), written with
an accumulator of the current word's characters in reverse. -/
def wordsAux : List Char → List Char → List (List Char)
  | [], cur => if cur = [] then [] else [cur.reverse]
  | c :: cs, cur =>
    if goIsSpace c then
      if cur = [] then wordsAux cs [] else cur.reverse :: wordsAux cs []
    else wordsAux cs (c :: cur)

/-- `strings.Fields c` of main.go line 65. -/
def goFields (l : List Char) : List (List Char) := wordsAux l []

/-- `strings.Join(fields, " ")` of main.go line 65. -/
def joinSpace : List (List Char) → List Char
  | [] => []
  | [w] => w
  | w :: ws => w ++ ' ' :: joinSpace ws

/-- The cleaning pipeline of `normaliseCategory` (main.go lines 62-65):
lowercase, map '-' and '_' to spaces, split into fields and re-join with
single spaces. -/
def cleanCategory (l : List Char) : List Char :=
  joinSpace (goFields (l.map catChar))

/-- The `switch` of `normaliseCategory` (main.go lines 66-85) applied to the
cleaned string. -/
def selectCat (c : List Char) : List Char :=
  if c = "diatomic nonmetal".toList ∨ c = "polyatomic nonmetal".toList then
    "nonmetal".toList
  else if c = "noble gas".toList ∨ c = "noble gases".toList then
    "noble gas".toList
  else if c = "alkali metal".toList ∨ c = "alkali metals".toList then
    "alkali metal".toList
  else if c = "alkaline earth metal".toList ∨ c = "alkaline earth metals".toList then
    "alkaline earth metal".toList
  else if c = "transition metal".toList ∨ c = "transition metals".toList then
    "transition metal".toList
  else if c = "post transition metal".toList ∨ c = "post transition metals".toList then
    "post-transition metal".toList
  else if c = "lanthanide".toList ∨ c = "lanthanoid".toList ∨
          c = "lanthanoids".toList ∨ c = "lanthanides".toList then
    "lanthanide".toList
  else if c = "actinide".toList ∨ c = "actinoid".toList ∨
          c = "actinoids".toList ∨ c = "actinides".toList then
    "actinide".toList
  else c

/-- `normaliseCategory` of main.go (lines 61-86). -/
def normaliseCategory (l : List Char) : List Char := selectCat (cleanCategory l)

/-- ASCII uppercase letter test, for stating the lowercase invariant. -/
def isAsciiUpper (c : Char) : Bool := 65 ≤ c.toNat && c.toNat ≤ 90

/-- Boolean check that no two consecutive characters are both whitespace. -/
def noDoubleSpaceB : List Char → Bool
  | [] => true
  | [_] => true
  | a :: b :: t => !(goIsSpace a && goIsSpace b) && noDoubleSpaceB (b :: t)

/-- No two consecutive characters are both whitespace. -/
def noDoubleSpace (l : List Char) : Prop := noDoubleSpaceB l = true

instance (l : List Char) : Decidable (noDoubleSpace l) :=
  inferInstanceAs (Decidable (noDoubleSpaceB l = true))

/-! ### Helper lemmas about characters -/

theorem char_toNat_ofNat (n : Nat) (h : n < 55296) : (Char.ofNat n).toNat = n := by
  have h2 : Char.ofNat n = Char.ofNatAux n (Or.inl h) := dif_pos (Or.inl h)
  rw [h2]
  rfl

theorem goToLower_toNat_of_upper (c : Char) (h : 65 ≤ c.toNat ∧ c.toNat ≤ 90) :
    (goToLower c).toNat = c.toNat + 32 := by
  unfold goToLower
  rw [if_pos h]
  exact char_toNat_ofNat _ (by omega)

theorem goToLower_not_upper (c : Char) :
    ¬(65 ≤ (goToLower c).toNat ∧ (goToLower c).toNat ≤ 90) := by
  by_cases h : 65 ≤ c.toNat ∧ c.toNat ≤ 90
  · rw [goToLower_toNat_of_upper c h]
    omega
  · unfold goToLower
    rw [if_neg h]
    exact h

theorem goToLower_idem (c : Char) : goToLower (goToLower c) = goToLower c := by
  have h := goToLower_not_upper c
  show (if 65 ≤ (goToLower c).toNat ∧ (goToLower c).toNat ≤ 90 then
      Char.ofNat ((goToLower c).toNat + 32) else goToLower c) = goToLower c
  rw [if_neg h]

theorem catChar_eq_space (c : Char)
    (h : (goToLower c = '-' || goToLower c = '_') = true) : catChar c = ' ' := by
  unfold catChar replSep
  rw [if_pos h]

theorem catChar_eq_lower (c : Char)
    (h : ¬((goToLower c = '-' || goToLower c = '_') = true)) : catChar c = goToLower c := by
  unfold catChar replSep
  rw [if_neg h]

theorem catChar_space : catChar ' ' = ' ' := by decide

theorem catChar_idem (c : Char) : catChar (catChar c) = catChar c := by
  by_cases h : (goToLower c = '-' || goToLower c = '_') = true
  · rw [catChar_eq_space c h]
    decide
  · rw [catChar_eq_lower c h]
    unfold catChar
    rw [goToLower_idem]
    unfold replSep
    rw [if_neg h]

theorem isAsciiUpper_false (d : Char) (h : ¬(65 ≤ d.toNat ∧ d.toNat ≤ 90)) :
    isAsciiUpper d = false := by
  unfold isAsciiUpper
  rcases not_and_or.mp h with h1 | h1
  · simp [decide_eq_false h1]
  · simp [decide_eq_false h1]

theorem catChar_not_upper (c : Char) : isAsciiUpper (catChar c) = false := by
  by_cases h : (goToLower c = '-' || goToLower c = '_') = true
  · rw [catChar_eq_space c h]
    decide
  · rw [catChar_eq_lower c h]
    exact isAsciiUpper_false _ (goToLower_not_upper c)

theorem catChar_ne_sep (c : Char) : catChar c ≠ '_' ∧ catChar c ≠ '-' := by
  by_cases h : (goToLower c = '-' || goToLower c = '_') = true
  · rw [catChar_eq_space c h]
    exact ⟨by decide, by decide⟩
  · rw [catChar_eq_lower c h]
    simp only [Bool.or_eq_true, decide_eq_true_eq] at h
    exact ⟨fun hx => h (Or.inr hx), fun hx => h (Or.inl hx)⟩

/-! ### Helper lemmas about `strings.Fields` and `strings.Join` -/

theorem wordsAux_chars : ∀ (l cur : List Char), ∀ w ∈ wordsAux l cur, ∀ c ∈ w, c ∈ l ∨ c ∈ cur := by
  intro l
  induction l with
  | nil =>
    intro cur w hw c hc
    by_cases hcur : cur = []
    · simp [wordsAux, hcur] at hw
    · simp only [wordsAux, if_neg hcur, List.mem_singleton] at hw
      subst hw
      exact Or.inr (List.mem_reverse.mp hc)
  | cons a as ih =>
    intro cur w hw c hc
    by_cases hs : goIsSpace a = true
    · by_cases hcur : cur = []
      · simp only [wordsAux, if_pos hs, if_pos hcur] at hw
        rcases ih [] w hw c hc with h | h
        · exact Or.inl (List.mem_cons_of_mem _ h)
        · simp at h
      · simp only [wordsAux, if_pos hs, if_neg hcur, List.mem_cons] at hw
        rcases hw with h | h
        · subst h
          exact Or.inr (List.mem_reverse.mp hc)
        · rcases ih [] w h c hc with h2 | h2
          · exact Or.inl (List.mem_cons_of_mem _ h2)
          · simp at h2
    · simp only [wordsAux, if_neg hs] at hw
      rcases ih (a :: cur) w hw c hc with h | h
      · exact Or.inl (List.mem_cons_of_mem _ h)
      · rcases List.mem_cons.mp h with h2 | h2
        · subst h2
          exact Or.inl (List.mem_cons_self _ _)
        · exact Or.inr h2

theorem wordsAux_words_ok : ∀ (l cur : List Char), (∀ c ∈ cur, goIsSpace c = false) →
    ∀ w ∈ wordsAux l cur, w ≠ [] ∧ ∀ c ∈ w, goIsSpace c = false := by
  intro l
  induction l with
  | nil =>
    intro cur hcur w hw
    by_cases hcur0 : cur = []
    · simp [wordsAux, hcur0] at hw
    · simp only [wordsAux, if_neg hcur0, List.mem_singleton] at hw
      subst hw
      refine ⟨by simpa using hcur0, ?_⟩
      intro c hc
      exact hcur c (List.mem_reverse.mp hc)
  | cons a as ih =>
    intro cur hcur w hw
    by_cases hs : goIsSpace a = true
    · by_cases hcur0 : cur = []
      · simp only [wordsAux, if_pos hs, if_pos hcur0] at hw
        exact ih [] (by simp) w hw
      · simp only [wordsAux, if_pos hs, if_neg hcur0, List.mem_cons] at hw
        rcases hw with h | h
        · subst h
          refine ⟨by simpa using hcur0, ?_⟩
          intro c hc
          exact hcur c (List.mem_reverse.mp hc)
        · exact ih [] (by simp) w h
    · simp only [wordsAux, if_neg hs] at hw
      refine ih (a :: cur) ?_ w hw
      intro c hc
      rcases List.mem_cons.mp hc with h | h
      · subst h
        simpa using hs
      · exact hcur c h

theorem wordsAux_append_word : ∀ (w t cur : List Char), (∀ c ∈ w, goIsSpace c = false) →
    wordsAux (w ++ t) cur = wordsAux t (w.reverse ++ cur) := by
  intro w
  induction w with
  | nil =>
    intro t cur _
    simp
  | cons a as ih =>
    intro t cur hw
    have ha : goIsSpace a = false := hw a (List.mem_cons_self _ _)
    have ha' : ¬(goIsSpace a = true) := by simp [ha]
    show wordsAux (a :: (as ++ t)) cur = wordsAux t ((a :: as).reverse ++ cur)
    simp only [wordsAux, if_neg ha']
    rw [ih t (a :: cur) (fun c hc => hw c (List.mem_cons_of_mem _ hc))]
    congr 1
    simp [List.reverse_cons, List.append_assoc]

theorem goFields_joinSpace : ∀ ws : List (List Char),
    (∀ w ∈ ws, w ≠ [] ∧ ∀ c ∈ w, goIsSpace c = false) → goFields (joinSpace ws) = ws := by
  intro ws
  induction ws with
  | nil => intro _; rfl
  | cons w ws ih =>
    intro h
    obtain ⟨hne, hfree⟩ := h w (List.mem_cons_self _ _)
    cases ws with
    | nil =>
      show goFields (joinSpace [w]) = [w]
      have h3 := wordsAux_append_word w [] [] hfree
      rw [List.append_nil] at h3
      show wordsAux w [] = [w]
      rw [h3, List.append_nil]
      simp only [wordsAux]
      rw [if_neg (by simpa using hne), List.reverse_reverse]
    | cons w2 ws2 =>
      show goFields (w ++ ' ' :: joinSpace (w2 :: ws2)) = w :: w2 :: ws2
      unfold goFields
      rw [wordsAux_append_word w _ [] hfree, List.append_nil]
      simp only [wordsAux]
      rw [if_pos (by decide : goIsSpace ' ' = true)]
      rw [if_neg (by simpa using hne), List.reverse_reverse]
      congr 1
      exact ih (fun x hx => h x (List.mem_cons_of_mem _ hx))

theorem joinSpace_chars : ∀ ws : List (List Char), ∀ c ∈ joinSpace ws, c = ' ' ∨ ∃ w ∈ ws, c ∈ w := by
  intro ws
  induction ws with
  | nil =>
    intro c hc
    simp [joinSpace] at hc
  | cons w ws ih =>
    cases ws with
    | nil =>
      intro c hc
      exact Or.inr ⟨w, List.mem_cons_self _ _, hc⟩
    | cons w2 ws2 =>
      intro c hc
      rw [show joinSpace (w :: w2 :: ws2) = w ++ ' ' :: joinSpace (w2 :: ws2) from rfl] at hc
      rcases List.mem_append.mp hc with h | h
      · exact Or.inr ⟨w, List.mem_cons_self _ _, h⟩
      · rcases List.mem_cons.mp h with h2 | h2
        · exact Or.inl h2
        · rcases ih c h2 with h3 | ⟨w3, hw3, hc3⟩
          · exact Or.inl h3
          · exact Or.inr ⟨w3, List.mem_cons_of_mem _ hw3, hc3⟩

theorem map_joinSpace (f : Char → Char) (hf : f ' ' = ' ') :
    ∀ ws : List (List Char), List.map f (joinSpace ws) = joinSpace (ws.map (List.map f)) := by
  intro ws
  induction ws with
  | nil => rfl
  | cons w ws ih =>
    cases ws with
    | nil => rfl
    | cons w2 ws2 =>
      show List.map f (w ++ ' ' :: joinSpace (w2 :: ws2)) =
        List.map f w ++ ' ' :: joinSpace ((w2 :: ws2).map (List.map f))
      rw [List.map_append, List.map_cons, hf, ih]

theorem noDoubleSpace_of_no_space (w : List Char) (h : ∀ c ∈ w, goIsSpace c = false) :
    noDoubleSpace w := by
  induction w with
  | nil => rfl
  | cons a l ih =>
    cases l with
    | nil => rfl
    | cons b t =>
      have ha := h a (List.mem_cons_self _ _)
      have hrest := ih (fun c hc => h c (List.mem_cons_of_mem _ hc))
      show (!(goIsSpace a && goIsSpace b) && noDoubleSpaceB (b :: t)) = true
      rw [ha, hrest]
      rfl

theorem joinSpace_head_append : ∀ (w : List Char) (ws : List (List Char)),
    ∃ t, joinSpace (w :: ws) = w ++ t := by
  intro w ws
  cases ws with
  | nil => exact ⟨[], (List.append_nil w).symm⟩
  | cons w2 ws2 => exact ⟨' ' :: joinSpace (w2 :: ws2), rfl⟩

theorem noDoubleSpaceB_append_word : ∀ (w t : List Char),
    (∀ c ∈ w, goIsSpace c = false) → noDoubleSpaceB (' ' :: t) = true →
    noDoubleSpaceB (w ++ ' ' :: t) = true := by
  intro w
  induction w with
  | nil =>
    intro t _ h2
    exact h2
  | cons a as ih =>
    intro t hfree h2
    have ha := hfree a (List.mem_cons_self _ _)
    cases as with
    | nil =>
      show (!(goIsSpace a && goIsSpace ' ') && noDoubleSpaceB (' ' :: t)) = true
      rw [ha, h2]
      rfl
    | cons a2 as2 =>
      have ih2 := ih t (fun c hc => hfree c (List.mem_cons_of_mem _ hc)) h2
      show (!(goIsSpace a && goIsSpace a2) && noDoubleSpaceB (a2 :: as2 ++ ' ' :: t)) = true
      rw [ha, ih2]
      rfl

theorem noDoubleSpace_joinSpace : ∀ ws : List (List Char),
    (∀ w ∈ ws, w ≠ [] ∧ ∀ c ∈ w, goIsSpace c = false) → noDoubleSpace (joinSpace ws) := by
  intro ws
  induction ws with
  | nil => intro _; rfl
  | cons w ws ih =>
    intro h
    obtain ⟨hne, hfree⟩ := h w (List.mem_cons_self _ _)
    cases ws with
    | nil => exact noDoubleSpace_of_no_space w hfree
    | cons w2 ws2 =>
      have hrest := ih (fun x hx => h x (List.mem_cons_of_mem _ hx))
      obtain ⟨hne2, hfree2⟩ := h w2 (List.mem_cons_of_mem _ (List.mem_cons_self _ _))
      show noDoubleSpaceB (w ++ ' ' :: joinSpace (w2 :: ws2)) = true
      refine noDoubleSpaceB_append_word w _ hfree ?_
      obtain ⟨t, ht⟩ := joinSpace_head_append w2 ws2
      cases w2 with
      | nil => exact absurd rfl hne2
      | cons c2 w2' =>
        have hc2 := hfree2 c2 (List.mem_cons_self _ _)
        rw [ht]
        show (!(goIsSpace ' ' && goIsSpace c2) && noDoubleSpaceB (c2 :: (w2' ++ t))) = true
        have hrest2 : noDoubleSpaceB (c2 :: (w2' ++ t)) = true := by
          have := hrest
          rw [ht] at this
          exact this
        rw [hc2, hrest2]
        rfl

/-! ### Helper lemmas about the cleaning pipeline of `normaliseCategory` -/

theorem cleanCategory_chars (l : List Char) :
    ∀ c ∈ cleanCategory l, c = ' ' ∨ ∃ x, catChar x = c := by
  intro c hc
  rcases joinSpace_chars _ c hc with h | ⟨w, hw, hcw⟩
  · exact Or.inl h
  · rcases wordsAux_chars _ [] w hw c hcw with h2 | h2
    · rcases List.mem_map.mp h2 with ⟨x, _, hx⟩
      exact Or.inr ⟨x, hx⟩
    · simp at h2

theorem cleanCategory_fields_ok (l : List Char) :
    ∀ w ∈ goFields (l.map catChar), w ≠ [] ∧ ∀ c ∈ w, goIsSpace c = false :=
  wordsAux_words_ok (l.map catChar) [] (by simp)

theorem cleanCategory_fix (l : List Char) :
    cleanCategory (cleanCategory l) = cleanCategory l := by
  have hmap : (cleanCategory l).map catChar = cleanCategory l := by
    have h1 : (cleanCategory l).map catChar = (cleanCategory l).map id := by
      refine List.map_congr_left ?_
      intro a ha
      rcases cleanCategory_chars l a ha with h | ⟨x, hx⟩
      · rw [h]
        exact catChar_space
      · rw [← hx]
        exact catChar_idem x
    rw [h1, List.map_id]
  show joinSpace (goFields ((cleanCategory l).map catChar)) = cleanCategory l
  rw [hmap]
  show joinSpace (goFields (joinSpace (goFields (l.map catChar)))) = cleanCategory l
  rw [goFields_joinSpace _ (cleanCategory_fields_ok l)]
  rfl

theorem cleanCategory_no_upper (l : List Char) :
    ∀ c ∈ cleanCategory l, isAsciiUpper c = false := by
  intro c hc
  rcases cleanCategory_chars l c hc with h | ⟨x, hx⟩
  · rw [h]
    decide
  · rw [← hx]
    exact catChar_not_upper x

theorem cleanCategory_no_sep (l : List Char) :
    '_' ∉ cleanCategory l ∧ '-' ∉ cleanCategory l := by
  constructor
  · intro hc
    rcases cleanCategory_chars l _ hc with h | ⟨x, hx⟩
    · exact absurd h (by decide)
    · exact absurd hx (catChar_ne_sep x).1
  · intro hc
    rcases cleanCategory_chars l _ hc with h | ⟨x, hx⟩
    · exact absurd h (by decide)
    · exact absurd hx (catChar_ne_sep x).2

theorem cleanCategory_noDouble (l : List Char) : noDoubleSpace (cleanCategory l) :=
  noDoubleSpace_joinSpace _ (cleanCategory_fields_ok l)

theorem selectCat_cases (c : List Char) :
    selectCat c = "nonmetal".toList ∨ selectCat c = "noble gas".toList ∨
    selectCat c = "alkali metal".toList ∨ selectCat c = "alkaline earth metal".toList ∨
    selectCat c = "transition metal".toList ∨ selectCat c = "post-transition metal".toList ∨
    selectCat c = "lanthanide".toList ∨ selectCat c = "actinide".toList ∨
    selectCat c = c := by
  unfold selectCat
  split_ifs <;> simp

/-! ### Claim theorems about the category normaliser -/

/-- C3: `normaliseCategory` is a total pure function (it is defined as a total
Lean function over all strings) and idempotent: `normalize(normalize(x)) =
normalize(x)` for every input; moreover `normalize("Noble Gases") =
normalize("noble gas") = "noble gas"` and `normalize("Unknown") = "unknown"`. -/
theorem normaliseCategory_total_idem :
    (∀ l : List Char, normaliseCategory (normaliseCategory l) = normaliseCategory l) ∧
    normaliseCategory "Noble Gases".toList = "noble gas".toList ∧
    normaliseCategory "noble gas".toList = "noble gas".toList ∧
    normaliseCategory "Unknown".toList = "unknown".toList := by
  refine ⟨?_, by decide, by decide, by decide⟩
  intro l
  show selectCat (cleanCategory (selectCat (cleanCategory l))) = selectCat (cleanCategory l)
  rcases selectCat_cases (cleanCategory l) with h|h|h|h|h|h|h|h|h
  · rw [h]; decide
  · rw [h]; decide
  · rw [h]; decide
  · rw [h]; decide
  · rw [h]; decide
  · rw [h]; decide
  · rw [h]; decide
  · rw [h]; decide
  · rw [h, cleanCategory_fix l]
    exact h

/-- C9: for every input string, the output of `normaliseCategory` contains no
ASCII uppercase letter, no underscore, and no two consecutive whitespace
characters; the only hyphen that can appear in the output is the one inside
the canonical name "post-transition metal", which is produced exactly from
the inputs whose cleaned form is "post transition metal" or
"post transition metals". -/
theorem normaliseCategory_output_invariants (l : List Char) :
    (∀ c ∈ normaliseCategory l, isAsciiUpper c = false) ∧
    '_' ∉ normaliseCategory l ∧
    noDoubleSpace (normaliseCategory l) ∧
    ('-' ∈ normaliseCategory l →
      normaliseCategory l = "post-transition metal".toList ∧
      (cleanCategory l = "post transition metal".toList ∨
       cleanCategory l = "post transition metals".toList)) ∧
    ((cleanCategory l = "post transition metal".toList ∨
      cleanCategory l = "post transition metals".toList) →
      normaliseCategory l = "post-transition metal".toList) := by
  unfold normaliseCategory selectCat
  split_ifs with h1 h2 h3 h4 h5 h6 h7 h8
  · refine ⟨by decide, by decide, by decide, ?_, ?_⟩
    · intro hmem
      exact absurd hmem (by decide)
    · intro hcl
      rcases h1 with h1 | h1 <;> rcases hcl with hcl | hcl <;> rw [h1] at hcl <;>
        exact absurd hcl (by decide)
  · refine ⟨by decide, by decide, by decide, ?_, ?_⟩
    · intro hmem
      exact absurd hmem (by decide)
    · intro hcl
      rcases h2 with h2 | h2 <;> rcases hcl with hcl | hcl <;> rw [h2] at hcl <;>
        exact absurd hcl (by decide)
  · refine ⟨by decide, by decide, by decide, ?_, ?_⟩
    · intro hmem
      exact absurd hmem (by decide)
    · intro hcl
      rcases h3 with h3 | h3 <;> rcases hcl with hcl | hcl <;> rw [h3] at hcl <;>
        exact absurd hcl (by decide)
  · refine ⟨by decide, by decide, by decide, ?_, ?_⟩
    · intro hmem
      exact absurd hmem (by decide)
    · intro hcl
      rcases h4 with h4 | h4 <;> rcases hcl with hcl | hcl <;> rw [h4] at hcl <;>
        exact absurd hcl (by decide)
  · refine ⟨by decide, by decide, by decide, ?_, ?_⟩
    · intro hmem
      exact absurd hmem (by decide)
    · intro hcl
      rcases h5 with h5 | h5 <;> rcases hcl with hcl | hcl <;> rw [h5] at hcl <;>
        exact absurd hcl (by decide)
  · refine ⟨by decide, by decide, by decide, ?_, ?_⟩
    · intro _
      exact ⟨rfl, h6⟩
    · intro _
      rfl
  · refine ⟨by decide, by decide, by decide, ?_, ?_⟩
    · intro hmem
      exact absurd hmem (by decide)
    · intro hcl
      exact absurd hcl h6
  · refine ⟨by decide, by decide, by decide, ?_, ?_⟩
    · intro hmem
      exact absurd hmem (by decide)
    · intro hcl
      exact absurd hcl h6
  · refine ⟨cleanCategory_no_upper l, (cleanCategory_no_sep l).1, cleanCategory_noDouble l, ?_, ?_⟩
    · intro hmem
      exact absurd hmem (cleanCategory_no_sep l).2
    · intro hcl
      exact absurd hcl h6

/-- C9 witness: the hyphen clause of `normaliseCategory_output_invariants`
instantiated at the concrete input "Post_Transition  Metals". -/
theorem normaliseCategory_output_invariants_witness :
    normaliseCategory "Post_Transition  Metals".toList = "post-transition metal".toList ∧
    (cleanCategory "Post_Transition  Metals".toList = "post transition metal".toList ∨
     cleanCategory "Post_Transition  Metals".toList = "post transition metals".toList) :=
  (normaliseCategory_output_invariants _).2.2.2.1 (by decide)

/-! ### Claim theorems about canvas geometry and layout -/

/-- C2: for every canvas width and measured symbol width, the computed x
origin is the integer quotient of `W - mw` by 2 (hence within one pixel of
the exact midpoint `(W - mw)/2`), the y origin is the canvas midline `H/2`,
the symbol stays in bounds when it fits (`x + mw ≤ W`, `0 ≤ x`), and a
zero-width (empty) symbol is placed exactly at the horizontal centre. -/
theorem symbol_centering (W mw H : Int) (h0 : 0 ≤ mw) (hle : mw ≤ W) :
    (2 * symbolX W mw ≤ W - mw ∧ W - mw ≤ 2 * symbolX W mw + 1) ∧
    symbolX W mw + mw ≤ W ∧ 0 ≤ symbolX W mw ∧
    symbolX W 0 = W / 2 ∧ symbolY H = H / 2 := by
  unfold symbolX symbolY
  omega

/-- C2 witness: `symbol_centering` at the spec's example canvas 800 x 600
with a measured symbol width of 120. -/
theorem symbol_centering_witness :
    (2 * symbolX 800 120 ≤ 800 - 120 ∧ (800 : Int) - 120 ≤ 2 * symbolX 800 120 + 1) ∧
    symbolX 800 120 + 120 ≤ 800 ∧ 0 ≤ symbolX 800 120 ∧
    symbolX 800 0 = 800 / 2 ∧ symbolY 600 = 600 / 2 :=
  symbol_centering 800 120 600 (by decide) (by decide)

/-- C5: for every positive configured height, border thickness is `H / 15`
and padding is `H / 20` under integer division, the canvas dimensions are
positive, and neither border thickness nor padding exceeds half of the
smaller canvas dimension. -/
theorem geometry_invariants (h : Nat) (hpos : 1 ≤ h) :
    borderThickness h = h / 15 ∧ tilePadding h = h / 20 ∧
    1 ≤ tileWidth h ∧ 1 ≤ h ∧
    borderThickness h ≤ min (tileWidth h) h / 2 ∧
    tilePadding h ≤ min (tileWidth h) h / 2 := by
  unfold borderThickness tilePadding tileWidth
  have hW : h ≤ 2456 * h / 1882 := by omega
  rw [Nat.min_eq_right hW]
  omega

/-- C5 witness: `geometry_invariants` at the default configured height 600. -/
theorem geometry_invariants_witness :
    borderThickness 600 = 600 / 15 ∧ tilePadding 600 = 600 / 20 ∧
    1 ≤ tileWidth 600 ∧ 1 ≤ 600 ∧
    borderThickness 600 ≤ min (tileWidth 600) 600 / 2 ∧
    tilePadding 600 ≤ min (tileWidth 600) 600 / 2 :=
  geometry_invariants 600 (by decide)

/-- C6 counterexample: the number and mass roles share the same font-size
divisor (both 10), so the four divisors are not pairwise distinct as the
claim requires. -/
theorem font_divisors_counterexample :
    numSize = massSize ∧
    ¬ List.Pairwise (fun a b => a ≠ b) [numSize, symSize, nameSize, massSize] := by
  exact ⟨rfl, by decide⟩

/-- C6 (amended): each text role's font size is the canvas height divided by
a fixed constant (number 10, symbol 3, name 7, mass 10); the symbol role has
the strictly smallest divisor and hence the largest glyphs, but the
constants are not all distinct: number and mass share divisor 10. -/
theorem font_divisors (h : ℚ) (hpos : 0 < h) :
    symSize < numSize ∧ symSize < nameSize ∧ symSize < massSize ∧ nameSize < numSize ∧
    numSize = massSize ∧
    fontSizeFor numSize h < fontSizeFor symSize h ∧
    fontSizeFor nameSize h < fontSizeFor symSize h ∧
    fontSizeFor massSize h < fontSizeFor symSize h := by
  refine ⟨by decide, by decide, by decide, by decide, rfl, ?_, ?_, ?_⟩
  · unfold fontSizeFor numSize symSize
    exact div_lt_div_of_pos_left hpos (by norm_num) (by norm_num)
  · unfold fontSizeFor nameSize symSize
    exact div_lt_div_of_pos_left hpos (by norm_num) (by norm_num)
  · unfold fontSizeFor massSize symSize
    exact div_lt_div_of_pos_left hpos (by norm_num) (by norm_num)

/-- C6 witness: `font_divisors` at the default configured height 600. -/
theorem font_divisors_witness :
    symSize < numSize ∧ symSize < nameSize ∧ symSize < massSize ∧ nameSize < numSize ∧
    numSize = massSize ∧
    fontSizeFor numSize 600 < fontSizeFor symSize 600 ∧
    fontSizeFor nameSize 600 < fontSizeFor symSize 600 ∧
    fontSizeFor massSize 600 < fontSizeFor symSize 600 :=
  font_divisors 600 (by norm_num)

/-- C7 counterexample: at the default height 600 the computed width is the
truncation 782, while rounding `600 x 2456/1882` gives 783; and doubling the
height from 8 to 16 does not exactly double the border thickness (0 to 1). -/
theorem width_round_counterexample :
    tileWidth 600 = 782 ∧ specRoundWidth 600 = 783 ∧
    borderThickness 16 = 1 ∧ 2 * borderThickness 8 = 0 := by
  decide

/-- C7 (amended): the computed width is the truncation (floor, for positive
heights) of `h x 2456/1882`, not its rounding; doubling the configured
height doubles the computed width to within one pixel of integer rounding,
and doubles border thickness and padding to within one unit of integer
division. -/
theorem width_scaling (h : Nat) :
    tileWidth h = 2456 * h / 1882 ∧
    2 * tileWidth h ≤ tileWidth (2 * h) ∧ tileWidth (2 * h) ≤ 2 * tileWidth h + 1 ∧
    (borderThickness (2 * h) = 2 * borderThickness h ∨
     borderThickness (2 * h) = 2 * borderThickness h + 1) ∧
    (tilePadding (2 * h) = 2 * tilePadding h ∨
     tilePadding (2 * h) = 2 * tilePadding h + 1) := by
  unfold tileWidth borderThickness tilePadding
  omega

/-! ### Helper lemmas about hex-colour parsing -/

theorem scanRGB_alpha (h : List Char) : (scanRGB h).a = 255 := by
  unfold scanRGB
  repeat' split
  all_goals rfl

theorem hexToRGBA_alpha (s : List Char) : (hexToRGBA s).a = 255 := by
  unfold hexToRGBA
  split
  · exact scanRGB_alpha _
  · rfl

theorem hexToRGBA_wrong_length (s : List Char)
    (h3 : (stripHash (goTrimSpace s)).length ≠ 3)
    (h6 : (stripHash (goTrimSpace s)).length ≠ 6) :
    hexToRGBA s = ⟨0, 0, 0, 255⟩ := by
  have hb : hexBody s = stripHash (goTrimSpace s) := by
    unfold hexBody
    rw [if_neg h3]
  unfold hexToRGBA
  rw [hb, if_neg h6]

theorem parseHexColor_ne_none (s : List Char) (hs : s ≠ []) : parseHexColor s ≠ none := by
  cases s with
  | nil => exact absurd rfl hs
  | cons c0 rest =>
    by_cases hc0 : c0 = '#'
    · subst hc0
      rcases rest with _ | ⟨a1, _ | ⟨a2, _ | ⟨a3, _ | ⟨a4, _ | ⟨a5, _ | ⟨a6, _ | ⟨a7, rest'⟩⟩⟩⟩⟩⟩⟩ <;>
        simp [parseHexColor]
    · simp [parseHexColor, hc0]

theorem parseHexColor_ok_shape (s : List Char) (r : RGBA)
    (hp : parseHexColor s = some (r, false)) :
    s.length = 7 ∧ s.head? = some '#' ∧ r.a = 255 := by
  cases s with
  | nil => simp [parseHexColor] at hp
  | cons c0 rest =>
    by_cases hc0 : c0 = '#'
    · subst hc0
      rcases rest with _ | ⟨a1, _ | ⟨a2, _ | ⟨a3, _ | ⟨a4, _ | ⟨a5, _ | ⟨a6, _ | ⟨a7, rest'⟩⟩⟩⟩⟩⟩⟩ <;>
        simp [parseHexColor] at hp
      obtain ⟨hr, _⟩ := hp
      refine ⟨rfl, rfl, ?_⟩
      rw [← hr]
    · simp [parseHexColor, hc0] at hp

theorem parseHexColor_accepts (a1 a2 a3 a4 a5 a6 : Char)
    (h1 : (hexByteVal a1).isSome) (h2 : (hexByteVal a2).isSome)
    (h3 : (hexByteVal a3).isSome) (h4 : (hexByteVal a4).isSome)
    (h5 : (hexByteVal a5).isSome) (h6 : (hexByteVal a6).isSome) :
    parseHexColor ['#', a1, a2, a3, a4, a5, a6] =
      some (⟨(hexByteVal a1).getD 0 * 16 + (hexByteVal a2).getD 0,
             (hexByteVal a3).getD 0 * 16 + (hexByteVal a4).getD 0,
             (hexByteVal a5).getD 0 * 16 + (hexByteVal a6).getD 0, 255⟩, false) := by
  obtain ⟨v1, hv1⟩ := Option.isSome_iff_exists.mp h1
  obtain ⟨v2, hv2⟩ := Option.isSome_iff_exists.mp h2
  obtain ⟨v3, hv3⟩ := Option.isSome_iff_exists.mp h3
  obtain ⟨v4, hv4⟩ := Option.isSome_iff_exists.mp h4
  obtain ⟨v5, hv5⟩ := Option.isSome_iff_exists.mp h5
  obtain ⟨v6, hv6⟩ := Option.isSome_iff_exists.mp h6
  simp [parseHexColor, hv1, hv2, hv3, hv4, hv5, hv6]

/-! ### Claim theorems about hex parsing and colour resolution -/

/-- C10: main.go's `hexToRGBA` returns opaque black RGBA(0,0,0,255) for every
input whose form after trimming whitespace and an optional leading '#' has
length other than 3 or 6, and the batch loop draws an opaque black border
whenever the element's normalised category is absent from the colour table;
the substituted colour on both paths is black, not gray. -/
theorem black_fallbacks :
    (∀ s : List Char, (stripHash (goTrimSpace s)).length ≠ 3 →
      (stripHash (goTrimSpace s)).length ≠ 6 → hexToRGBA s = ⟨0, 0, 0, 255⟩) ∧
    (∀ (colours : List (List Char × List Char)) (ty : List Char),
      lookupL colours ty = none → borderColour colours ty = ⟨0, 0, 0, 255⟩) ∧
    (⟨0, 0, 0, 255⟩ : RGBA) ≠ ⟨224, 224, 224, 255⟩ := by
  refine ⟨hexToRGBA_wrong_length, ?_, by decide⟩
  intro colours ty hnone
  unfold borderColour
  rw [hnone]
  rfl

/-- C10 witness: `black_fallbacks` at the malformed hex "#12" and at a
category missing from an empty colour table. -/
theorem black_fallbacks_witness :
    hexToRGBA "#12".toList = ⟨0, 0, 0, 255⟩ ∧
    borderColour [] "metalloid".toList = ⟨0, 0, 0, 255⟩ :=
  ⟨black_fallbacks.1 _ (by decide) (by decide), black_fallbacks.2.1 [] _ rfl⟩

/-- C4 counterexample: part_000's `parseHexColor` rejects the 3-digit form
"#abc" (returning an error, not RGBA(0xaa,0xbb,0xcc,0xff)), and main.go's
`hexToRGBA` maps the malformed "#12" to opaque black, which is not a gray
fallback. -/
theorem hex_parsing_counterexample :
    parseHexColor "#abc".toList = some (⟨0, 0, 0, 255⟩, true) ∧
    hexToRGBA "#12".toList = ⟨0, 0, 0, 255⟩ ∧
    (⟨0, 0, 0, 255⟩ : RGBA) ≠ ⟨224, 224, 224, 255⟩ := by
  decide

/-- C4 (amended): main.go's `hexToRGBA` accepts the 3-digit and 6-digit
forms with an optional leading '#' after trimming whitespace, expanding
3-digit forms ("#abc" gives RGBA(0xaa,0xbb,0xcc,0xff), "#3498db" gives
RGBA(0x34,0x98,0xdb,0xff)), and its output alpha is always fully opaque; but
any other length yields opaque black (not gray), and a non-hex character in
a 6-character body yields a partially scanned colour with the failed
components left zero rather than a failure.  part_000's `parseHexColor`
accepts exactly the '#'-prefixed 6-digit form — a 3-digit form is a parse
failure — and on any non-empty input it returns without panicking, its
errors being converted to the gray fallback by the caller. -/
theorem hex_parsing_amended :
    hexToRGBA "#abc".toList = ⟨0xaa, 0xbb, 0xcc, 255⟩ ∧
    hexToRGBA "#3498db".toList = ⟨0x34, 0x98, 0xdb, 255⟩ ∧
    hexToRGBA "3498db".toList = ⟨0x34, 0x98, 0xdb, 255⟩ ∧
    hexToRGBA "34zz99".toList = ⟨0x34, 0, 0, 255⟩ ∧
    (∀ s : List Char, (hexToRGBA s).a = 255) ∧
    (∀ s : List Char, (stripHash (goTrimSpace s)).length ≠ 3 →
      (stripHash (goTrimSpace s)).length ≠ 6 → hexToRGBA s = ⟨0, 0, 0, 255⟩) ∧
    (∀ (s : List Char) (r : RGBA), parseHexColor s = some (r, false) →
      s.length = 7 ∧ s.head? = some '#' ∧ r.a = 255) ∧
    (∀ s : List Char, s ≠ [] → parseHexColor s ≠ none) ∧
    (∀ a1 a2 a3 a4 a5 a6 : Char,
      (hexByteVal a1).isSome → (hexByteVal a2).isSome → (hexByteVal a3).isSome →
      (hexByteVal a4).isSome → (hexByteVal a5).isSome → (hexByteVal a6).isSome →
      parseHexColor ['#', a1, a2, a3, a4, a5, a6] =
        some (⟨(hexByteVal a1).getD 0 * 16 + (hexByteVal a2).getD 0,
               (hexByteVal a3).getD 0 * 16 + (hexByteVal a4).getD 0,
               (hexByteVal a5).getD 0 * 16 + (hexByteVal a6).getD 0, 255⟩, false)) :=
  ⟨by decide, by decide, by decide, by decide, hexToRGBA_alpha, hexToRGBA_wrong_length,
   parseHexColor_ok_shape, parseHexColor_ne_none, parseHexColor_accepts⟩

/-- C4 witness: the hypothesis-bearing clauses of `hex_parsing_amended`
instantiated at "#12345" (wrong length, black) and at the six hex digits of
"#e0e0e0" (accepted without error). -/
theorem hex_parsing_amended_witness :
    hexToRGBA "#12345".toList = ⟨0, 0, 0, 255⟩ ∧
    parseHexColor ['#', 'e', '0', 'e', '0', 'e', '0'] =
      some (⟨(hexByteVal 'e').getD 0 * 16 + (hexByteVal '0').getD 0,
             (hexByteVal 'e').getD 0 * 16 + (hexByteVal '0').getD 0,
             (hexByteVal 'e').getD 0 * 16 + (hexByteVal '0').getD 0, 255⟩, false) :=
  ⟨hex_parsing_amended.2.2.2.2.2.1 "#12345".toList (by decide) (by decide),
   hex_parsing_amended.2.2.2.2.2.2.2.2 'e' '0' 'e' '0' 'e' '0'
     (by decide) (by decide) (by decide) (by decide) (by decide) (by decide)⟩

/-- C1 counterexample: resolving a category against an empty colour table
selects the empty hex string (both the category key and "unknown" are
absent); `parseHexColor` then indexes `s[0]` on an empty string — an
out-of-range panic, modelled as `none` — so the result is not the hardcoded
neutral gray. -/
theorem resolve_fallback_counterexample :
    resolveColor "x".toList [] = none ∧
    (none : Option RGBA) ≠ some ⟨224, 224, 224, 255⟩ := by
  decide

/-- C1 (amended): part_000's colour resolution follows the fallback chain —
`table[category]` when present, else `table["unknown"]` — and a parse
failure of the selected non-empty hex string yields the hardcoded neutral
gray RGBA(224,224,224,255) without raising past the caller; resolving
"ghost-category" against a table with only an "unknown" entry "#e0e0e0"
yields RGBA(0xe0,0xe0,0xe0,0xff); but when the selected hex string is
absent (empty), `parseHexColor` panics instead of falling back.  (main.go
substitutes opaque black, not gray, on its missing-key path.) -/
theorem resolve_fallback_chain :
    (∀ (table : List (List Char × List Char)) (cat hex : List Char),
      lookupL table cat = some hex → selectedHex table cat = hex) ∧
    (∀ (table : List (List Char × List Char)) (cat : List Char),
      lookupL table cat = none →
        selectedHex table cat = (lookupL table unknownKey).getD []) ∧
    (∀ (table : List (List Char × List Char)) (cat : List Char) (c : RGBA),
      parseHexColor (selectedHex table cat) = some (c, false) →
        resolveColor cat table = some c) ∧
    (∀ (table : List (List Char × List Char)) (cat : List Char) (c : RGBA),
      parseHexColor (selectedHex table cat) = some (c, true) →
        resolveColor cat table = some ⟨224, 224, 224, 255⟩) ∧
    (∀ (table : List (List Char × List Char)) (cat : List Char),
      selectedHex table cat ≠ [] → resolveColor cat table ≠ none) ∧
    resolveColor "ghost-category".toList [(unknownKey, "#e0e0e0".toList)] =
      some ⟨0xe0, 0xe0, 0xe0, 255⟩ := by
  refine ⟨?_, ?_, ?_, ?_, ?_, by decide⟩
  · intro table cat hex h
    unfold selectedHex
    rw [h]
  · intro table cat h
    unfold selectedHex
    rw [h]
  · intro table cat c h
    unfold resolveColor
    rw [h]
  · intro table cat c h
    unfold resolveColor
    rw [h]
  · intro table cat hne
    unfold resolveColor
    cases hp : parseHexColor (selectedHex table cat) with
    | none => exact absurd hp (parseHexColor_ne_none _ hne)
    | some p =>
      obtain ⟨c, e⟩ := p
      cases e <;> simp

/-- C1 witness: `resolve_fallback_chain` applied at a table holding the key
directly (good hex) and at a table whose entry is malformed (gray). -/
theorem resolve_fallback_witness :
    resolveColor "nonmetal".toList [("nonmetal".toList, "#3498db".toList)] =
      some ⟨0x34, 0x98, 0xdb, 255⟩ ∧
    resolveColor "m".toList [("m".toList, "zzz".toList)] = some ⟨224, 224, 224, 255⟩ :=
  ⟨resolve_fallback_chain.2.2.1 _ _ ⟨0x34, 0x98, 0xdb, 255⟩ (by decide),
   resolve_fallback_chain.2.2.2.1 _ _ ⟨0, 0, 0, 255⟩ (by decide)⟩

/-! ### Helper lemmas about the batch loops -/

theorem runBatchMainGo_cons (ev : IOEvent) (rest : List IOEvent) :
    runBatchMainGo (ev :: rest) =
      ⟨(if ev = IOEvent.createFail then 0 else 1) + (runBatchMainGo rest).filesWritten,
       (runBatchMainGo rest).warningsLogged, 1 + (runBatchMainGo rest).progressLines,
       (runBatchMainGo rest).exitSuccess⟩ := rfl

theorem runBatchPart000_cons_ok (rest : List IOEvent) :
    runBatchPart000 (IOEvent.ok :: rest) =
      ⟨1 + (runBatchPart000 rest).filesWritten, (runBatchPart000 rest).warningsLogged,
       1 + (runBatchPart000 rest).progressLines, (runBatchPart000 rest).exitSuccess⟩ := rfl

theorem runBatchPart000_cons_createFail (rest : List IOEvent) :
    runBatchPart000 (IOEvent.createFail :: rest) =
      ⟨(runBatchPart000 rest).filesWritten, 1 + (runBatchPart000 rest).warningsLogged,
       (runBatchPart000 rest).progressLines, (runBatchPart000 rest).exitSuccess⟩ := rfl

theorem runBatchMainGo_allOk : ∀ evs : List IOEvent, (∀ e ∈ evs, e = IOEvent.ok) →
    runBatchMainGo evs = ⟨evs.length, 0, evs.length, true⟩ := by
  intro evs
  induction evs with
  | nil => intro _; rfl
  | cons e t ih =>
    intro h
    have he : e = IOEvent.ok := h e (List.mem_cons_self _ _)
    have ht := ih (fun x hx => h x (List.mem_cons_of_mem _ hx))
    subst he
    rw [runBatchMainGo_cons, ht, if_neg (by decide : ¬(IOEvent.ok = IOEvent.createFail))]
    show (⟨1 + t.length, 0, 1 + t.length, true⟩ : BatchResult) =
      ⟨t.length + 1, 0, t.length + 1, true⟩
    rw [Nat.add_comm 1 t.length]

theorem runBatchPart000_allOk : ∀ evs : List IOEvent, (∀ e ∈ evs, e = IOEvent.ok) →
    runBatchPart000 evs = ⟨evs.length, 0, evs.length, true⟩ := by
  intro evs
  induction evs with
  | nil => intro _; rfl
  | cons e t ih =>
    intro h
    have he : e = IOEvent.ok := h e (List.mem_cons_self _ _)
    have ht := ih (fun x hx => h x (List.mem_cons_of_mem _ hx))
    subst he
    rw [runBatchPart000_cons_ok, ht]
    show (⟨1 + t.length, 0, 1 + t.length, true⟩ : BatchResult) =
      ⟨t.length + 1, 0, t.length + 1, true⟩
    rw [Nat.add_comm 1 t.length]

theorem runBatchMainGo_oneFail : ∀ (pre post : List IOEvent),
    (∀ e ∈ pre, e = IOEvent.ok) → (∀ e ∈ post, e = IOEvent.ok) →
    runBatchMainGo (pre ++ IOEvent.createFail :: post) =
      ⟨pre.length + post.length, 0, pre.length + post.length + 1, true⟩ := by
  intro pre
  induction pre with
  | nil =>
    intro post _ hpost
    rw [List.nil_append, runBatchMainGo_cons, runBatchMainGo_allOk post hpost, if_pos rfl]
    show (⟨0 + post.length, 0, 1 + post.length, true⟩ : BatchResult) =
      ⟨0 + post.length, 0, 0 + post.length + 1, true⟩
    rw [show 1 + post.length = 0 + post.length + 1 from by omega]
  | cons e t ih =>
    intro post hpre hpost
    have he : e = IOEvent.ok := hpre e (List.mem_cons_self _ _)
    have h2 := ih post (fun x hx => hpre x (List.mem_cons_of_mem _ hx)) hpost
    subst he
    rw [List.cons_append, runBatchMainGo_cons, h2,
      if_neg (by decide : ¬(IOEvent.ok = IOEvent.createFail))]
    show (⟨1 + (t.length + post.length), 0, 1 + (t.length + post.length + 1), true⟩ : BatchResult) =
      ⟨t.length + 1 + post.length, 0, t.length + 1 + post.length + 1, true⟩
    rw [show 1 + (t.length + post.length) = t.length + 1 + post.length from by omega,
      show 1 + (t.length + post.length + 1) = t.length + 1 + post.length + 1 from by omega]

theorem runBatchPart000_oneFail : ∀ (pre post : List IOEvent),
    (∀ e ∈ pre, e = IOEvent.ok) → (∀ e ∈ post, e = IOEvent.ok) →
    runBatchPart000 (pre ++ IOEvent.createFail :: post) =
      ⟨pre.length + post.length, 1, pre.length + post.length, true⟩ := by
  intro pre
  induction pre with
  | nil =>
    intro post _ hpost
    rw [List.nil_append, runBatchPart000_cons_createFail, runBatchPart000_allOk post hpost]
    show (⟨post.length, 1 + 0, post.length, true⟩ : BatchResult) =
      ⟨0 + post.length, 1, 0 + post.length, true⟩
    rw [Nat.zero_add post.length]
  | cons e t ih =>
    intro post hpre hpost
    have he : e = IOEvent.ok := hpre e (List.mem_cons_self _ _)
    have h2 := ih post (fun x hx => hpre x (List.mem_cons_of_mem _ hx)) hpost
    subst he
    rw [List.cons_append, runBatchPart000_cons_ok, h2]
    show (⟨1 + (t.length + post.length), 1, 1 + (t.length + post.length), true⟩ : BatchResult) =
      ⟨t.length + 1 + post.length, 1, t.length + 1 + post.length, true⟩
    rw [show 1 + (t.length + post.length) = t.length + 1 + post.length from by omega]

/-! ### Claim theorems about the batch loops -/

/-- C8 counterexample: in main.go, a batch of three records whose middle
file creation fails yields two files but zero logged warnings — the create
and encode errors are discarded (`f, _ := os.Create`) — and the "Written:"
progress line is printed three times, once even for the failed element; the
claim's "plus a logged warning" does not hold for main.go. -/
theorem batch_logging_counterexample :
    runBatchMainGo [IOEvent.ok, IOEvent.createFail, IOEvent.ok] = ⟨2, 0, 3, true⟩ ∧
    (2 : Nat) = 3 - 1 ∧ ¬((0 : Nat) ≥ 1) := by
  decide

/-- C8 (amended): per-element I/O failures never abort either batch loop and
the process exits successfully; for N all-successful records both programs
produce exactly N files; a single mid-batch create failure yields N−1 files
in both programs, with exactly one logged warning in part_000 but zero
logged warnings in main.go (its I/O errors are silently discarded and its
progress line is printed for every element, the failed one included). -/
theorem batch_behaviour :
    (∀ evs : List IOEvent, (∀ e ∈ evs, e = IOEvent.ok) →
      (runBatchMainGo evs).filesWritten = evs.length ∧
      (runBatchPart000 evs).filesWritten = evs.length ∧
      (runBatchMainGo evs).exitSuccess = true ∧
      (runBatchPart000 evs).exitSuccess = true) ∧
    (∀ pre post : List IOEvent,
      (∀ e ∈ pre, e = IOEvent.ok) → (∀ e ∈ post, e = IOEvent.ok) →
      (runBatchPart000 (pre ++ IOEvent.createFail :: post)).filesWritten =
        (pre ++ IOEvent.createFail :: post).length - 1 ∧
      (runBatchPart000 (pre ++ IOEvent.createFail :: post)).warningsLogged = 1 ∧
      (runBatchPart000 (pre ++ IOEvent.createFail :: post)).exitSuccess = true ∧
      (runBatchMainGo (pre ++ IOEvent.createFail :: post)).filesWritten =
        (pre ++ IOEvent.createFail :: post).length - 1 ∧
      (runBatchMainGo (pre ++ IOEvent.createFail :: post)).warningsLogged = 0 ∧
      (runBatchMainGo (pre ++ IOEvent.createFail :: post)).progressLines =
        (pre ++ IOEvent.createFail :: post).length ∧
      (runBatchMainGo (pre ++ IOEvent.createFail :: post)).exitSuccess = true) := by
  constructor
  · intro evs h
    rw [runBatchMainGo_allOk evs h, runBatchPart000_allOk evs h]
    exact ⟨rfl, rfl, rfl, rfl⟩
  · intro pre post hpre hpost
    rw [runBatchMainGo_oneFail pre post hpre hpost, runBatchPart000_oneFail pre post hpre hpost,
      List.length_append, List.length_cons]
    refine ⟨?_, rfl, rfl, ?_, rfl, ?_, rfl⟩
    · show pre.length + post.length = pre.length + (post.length + 1) - 1
      omega
    · show pre.length + post.length = pre.length + (post.length + 1) - 1
      omega
    · show pre.length + post.length + 1 = pre.length + (post.length + 1)
      omega

/-- C8 witness: `batch_behaviour` at the concrete batches [ok, ok] (all
successful) and [ok] ++ createFail :: [ok] (one mid-batch failure). -/
theorem batch_behaviour_witness :
    ((runBatchMainGo [IOEvent.ok, IOEvent.ok]).filesWritten =
        [IOEvent.ok, IOEvent.ok].length ∧
      (runBatchPart000 [IOEvent.ok, IOEvent.ok]).filesWritten =
        [IOEvent.ok, IOEvent.ok].length ∧
      (runBatchMainGo [IOEvent.ok, IOEvent.ok]).exitSuccess = true ∧
      (runBatchPart000 [IOEvent.ok, IOEvent.ok]).exitSuccess = true) ∧
    ((runBatchPart000 ([IOEvent.ok] ++ IOEvent.createFail :: [IOEvent.ok])).filesWritten =
        ([IOEvent.ok] ++ IOEvent.createFail :: [IOEvent.ok]).length - 1 ∧
      (runBatchPart000 ([IOEvent.ok] ++ IOEvent.createFail :: [IOEvent.ok])).warningsLogged = 1 ∧
      (runBatchPart000 ([IOEvent.ok] ++ IOEvent.createFail :: [IOEvent.ok])).exitSuccess = true ∧
      (runBatchMainGo ([IOEvent.ok] ++ IOEvent.createFail :: [IOEvent.ok])).filesWritten =
        ([IOEvent.ok] ++ IOEvent.createFail :: [IOEvent.ok]).length - 1 ∧
      (runBatchMainGo ([IOEvent.ok] ++ IOEvent.createFail :: [IOEvent.ok])).warningsLogged = 0 ∧
      (runBatchMainGo ([IOEvent.ok] ++ IOEvent.createFail :: [IOEvent.ok])).progressLines =
        ([IOEvent.ok] ++ IOEvent.createFail :: [IOEvent.ok]).length ∧
      (runBatchMainGo ([IOEvent.ok] ++ IOEvent.createFail :: [IOEvent.ok])).exitSuccess = true) :=
  ⟨batch_behaviour.1 [IOEvent.ok, IOEvent.ok] (by decide),
   batch_behaviour.2 [IOEvent.ok] [IOEvent.ok] (by decide) (by decide)⟩
